import Mathlib

/-!
Verification of the cluster-testing k6 load-generation scripts.

The development shallowly embeds the STOMP-like frame codec, the per-session
state machine, the probe correlator and the teardown reconciliation of
`src/k6-ws-new.js` (plus the variant handlers of `src/k6-ws-new-min.js` and
`src/ws-script.js` where the claims cite them).  JavaScript strings are
modelled as `List Char`; JavaScript objects used as string-keyed maps are
modelled as association lists with JS-object insert/lookup/delete semantics
(`objSet`, `objGet`, `objDel`).  Timestamps (`Date.now()`) are `Nat`
milliseconds; RTT subtraction is carried out in `Int` as JS numbers would.
External library primitives that the scripts call (`JSON.parse`,
`JSON.stringify`, `Date.prototype.toISOString`, the HTTP `getChats` call)
are modelled as oracle parameters of the machine: the claims under scrutiny
do not depend on their internals, only on how the scripts react to their
results.
-/

namespace ClusterTesting

/-- JS-object assignment `m[k] = v`: an existing key keeps its position and
gets the new value, a fresh key is appended (JS insertion order). -/
def objSet {κ α : Type} [DecidableEq κ] (m : List (κ × α)) (k : κ) (v : α) :
    List (κ × α) :=
  if m.any (fun kv => kv.1 = k) then
    m.map (fun kv => if kv.1 = k then (k, v) else kv)
  else m ++ [(k, v)]

/-- JS-object read `m[k]`: `none` models `undefined`. -/
def objGet {κ α : Type} [DecidableEq κ] (m : List (κ × α)) (k : κ) : Option α :=
  (m.find? (fun kv => kv.1 = k)).map Prod.snd

/-- JS `delete m[k]`. -/
def objDel {κ α : Type} [DecidableEq κ] (m : List (κ × α)) (k : κ) :
    List (κ × α) :=
  m.filter (fun kv => ¬ kv.1 = k)

/-- A decoded STOMP frame: `{ command, headers, body }` as built by
`parseStompFrame` in `src/k6-ws-new.js`. -/
structure Frame where
  command : List Char
  headers : List (List Char × List Char)
  body : List Char
deriving DecidableEq

/-- Result of `parseStompFrame` when it does not return `null`: either the
distinguished heartbeat marker object `{command: 'HEARTBEAT'}` or a full
frame object. -/
inductive ParsedMsg where
  | heartbeat
  | frame (f : Frame)
deriving DecidableEq

/-- `stompFrame(command, headers, body)` of `src/k6-ws-new.js` (lines 73-82):
command line, one `key:value` line per header in order, a blank line, the
body, and the `\0` terminator.  (`if (headers)` / `if (body)` skip absent
arguments; an absent argument is modelled by `[]`, which appends nothing,
producing the same wire bytes.) -/
def stompFrame (command : List Char) (headers : List (List Char × List Char))
    (body : List Char) : List Char :=
  command ++ ['\n']
    ++ (headers.map (fun kv => kv.1 ++ [':'] ++ kv.2 ++ ['\n'])).flatten
    ++ ['\n'] ++ body ++ ['\x00']

/-- JS `head.split('\n')` on `List Char`. -/
def splitNl : List Char → List (List Char)
  | [] => [[]]
  | c :: rest =>
    if c = '\n' then [] :: splitNl rest
    else
      match splitNl rest with
      | [] => [[c]]
      | l :: ls => (c :: l) :: ls

/-- JS `s.indexOf('\n\n')`, with `none` for `-1`. -/
def findNlNl : List Char → Option Nat
  | [] => none
  | [_] => none
  | a :: b :: rest =>
    if a = '\n' ∧ b = '\n' then some 0
    else (findNlNl (b :: rest)).map (· + 1)

/-- One pass of the header loop of `parseStompFrame` (lines 99-107): skip
empty lines, skip lines whose first `:` is absent or at index 0, otherwise
split at the first `:` and assign into the headers object. -/
def parseHeaderLine (acc : List (List Char × List Char)) (line : List Char) :
    List (List Char × List Char) :=
  if line = [] then acc
  else
    match line.findIdx? (fun c => c = ':') with
    | none => acc
    | some idx =>
      if idx = 0 then acc
      else objSet acc (line.take idx) (line.drop (idx + 1))

/-- Last stage of `parseStompFrame`: given the `head` and `body` locals,
take the first line of the head as the command (`lines[0] || ''`) and fold
the remaining head lines into the headers object (lines 96-109). -/
def parseHeadBody (head body : List Char) : Frame :=
  { command := (splitNl head).headD []
    headers := (splitNl head).tail.foldl parseHeaderLine []
    body := body }

/-- Middle stage of `parseStompFrame`: split the terminator-stripped input
at the first `\n\n` into `head` and `body` (lines 92-94); without a blank
line the whole input is the head and the body is empty. -/
def parseFrameAfterStrip (s : List Char) : Frame :=
  match findNlNl s with
  | some i => parseHeadBody (s.take i) (s.drop (i + 2))
  | none => parseHeadBody s []

/-- The frame-building part of `parseStompFrame` (lines 89-109): strip a
trailing `\0` (lines 89-90), then split and parse head and body. -/
def parseFrameBody (raw : List Char) : Frame :=
  parseFrameAfterStrip (if raw.getLast? = some '\x00' then raw.dropLast else raw)

/-- `parseStompFrame(raw)` of `src/k6-ws-new.js` (lines 84-110): `null` for a
falsy (empty) input, the heartbeat marker for the single `'\n'`, otherwise a
frame object. -/
def parseStompFrame (raw : List Char) : Option ParsedMsg :=
  if raw = [] then none
  else if raw = ['\n'] then some ParsedMsg.heartbeat
  else some (ParsedMsg.frame (parseFrameBody raw))

/-! ### Round-trip infrastructure for the codec -/

/-- Two adjacent wire characters are not both newlines (no premature blank
line inside the head section). -/
def noNlPair (a b : Char) : Prop := ¬ (a = '\n' ∧ b = '\n')

/-- The `key:value` text of one encoded header line, without its newline. -/
def lineStr (kv : List Char × List Char) : List Char := kv.1 ++ ':' :: kv.2

/-- The part of an encoded frame strictly before the blank-line separator:
the command plus one newline-prefixed `key:value` chunk per header. -/
def headPart (c : List Char) (h : List (List Char × List Char)) : List Char :=
  c ++ (h.map (fun kv => '\n' :: lineStr kv)).flatten

/-- A valid encode input in the sense of the round-trip claim: non-empty
newline-free command, non-empty colon/newline-free header keys,
newline-free header values, distinct keys (headers are a JS object, hence a
mapping), and terminator-free body. -/
def ValidFrame (c : List Char) (h : List (List Char × List Char))
    (b : List Char) : Prop :=
  c ≠ [] ∧ '\n' ∉ c ∧
  (∀ kv ∈ h, kv.1 ≠ [] ∧ '\n' ∉ kv.1 ∧ ':' ∉ kv.1 ∧ '\n' ∉ kv.2) ∧
  (h.map Prod.fst).Nodup ∧ '\x00' ∉ b

instance (c : List Char) (h : List (List Char × List Char)) (b : List Char) :
    Decidable (ValidFrame c h b) := by
  unfold ValidFrame
  infer_instance

lemma stompFrame_as_headPart (h : List (List Char × List Char)) :
    ∀ (c b : List Char),
      stompFrame c h b = headPart c h ++ '\n' :: '\n' :: (b ++ ['\x00']) := by
  induction h with
  | nil => intro c b; simp [stompFrame, headPart]
  | cons kv t ih =>
    intro c b
    have step := ih (c ++ '\n' :: lineStr kv) b
    simp only [stompFrame, headPart, lineStr, List.map_cons, List.flatten_cons,
      List.append_assoc, List.cons_append, List.singleton_append,
      List.nil_append] at step ⊢
    exact step

lemma chain'_of_no_nl : ∀ (xs : List Char), '\n' ∉ xs → List.Chain' noNlPair xs
  | [], _ => List.chain'_nil
  | [a], _ => List.chain'_singleton a
  | a :: b :: t, hmem => by
    rw [List.chain'_cons]
    refine ⟨fun hab => hmem ?_, chain'_of_no_nl (b :: t) fun hb =>
      hmem (List.mem_cons_of_mem _ hb)⟩
    simp [hab.1]

lemma getLast?_ne_of_not_mem {xs : List Char} (h : '\n' ∉ xs) :
    xs.getLast? ≠ some '\n' := by
  intro hl
  obtain ⟨hne, heq⟩ :=
    List.mem_getLast?_eq_getLast (show '\n' ∈ xs.getLast? from hl)
  exact h (heq ▸ List.getLast_mem hne)

lemma headPart_ok : ∀ (h : List (List Char × List Char)) (c : List Char),
    c ≠ [] → List.Chain' noNlPair c → c.getLast? ≠ some '\n' →
    (∀ kv ∈ h, kv.1 ≠ [] ∧ '\n' ∉ kv.1 ∧ '\n' ∉ kv.2) →
    List.Chain' noNlPair (headPart c h) ∧
      (headPart c h).getLast? ≠ some '\n' ∧ headPart c h ≠ []
  | [], c, hc0, hch, hl, _ => by
    simpa [headPart] using ⟨hch, hl, hc0⟩
  | kv :: t, c, hc0, hch, hl, hh => by
    obtain ⟨hk0, hkn, hvn⟩ := hh kv (List.mem_cons_self _ _)
    have hla : '\n' ∉ lineStr kv := by
      simp only [lineStr, List.mem_append, List.mem_cons]
      rintro (h1 | h2 | h3)
      · exact hkn h1
      · exact absurd h2.symm (by decide)
      · exact hvn h3
    have hstep : headPart c (kv :: t) = headPart (c ++ '\n' :: lineStr kv) t := by
      simp [headPart, lineStr, List.append_assoc]
    rw [hstep]
    have hl0 : lineStr kv ≠ [] := by
      simp [lineStr]
    have hchain' : List.Chain' noNlPair (c ++ '\n' :: lineStr kv) := by
      rw [List.chain'_append]
      refine ⟨hch, ?_, ?_⟩
      · rw [List.chain'_cons']
        refine ⟨fun y hy => ?_, chain'_of_no_nl _ hla⟩
        intro hcontra
        exact hla (hcontra.2 ▸ List.mem_of_mem_head? hy)
      · intro x hx y hy
        intro hcontra
        exact hl (by rw [hcontra.1] at hx; simpa using hx)
    refine headPart_ok t (c ++ '\n' :: lineStr kv) (by simp) hchain' ?_
      (fun p hp => hh p (List.mem_cons_of_mem _ hp))
    rw [List.getLast?_append_of_ne_nil _ (by simp)]
    have : (('\n' :: lineStr kv)).getLast? = (lineStr kv).getLast? := by
      cases hcase : lineStr kv with
      | nil => exact absurd hcase hl0
      | cons z zs => simp [List.getLast?_cons_cons, hcase]
    rw [this]
    exact getLast?_ne_of_not_mem hla

lemma findNlNl_append : ∀ (xs ys : List Char), List.Chain' noNlPair xs →
    xs.getLast? ≠ some '\n' →
    findNlNl (xs ++ '\n' :: '\n' :: ys) = some xs.length
  | [], ys, _, _ => by simp [findNlNl]
  | [a], ys, _, hlast => by
    have ha : ¬ a = '\n' := by simpa using hlast
    simp [findNlNl, ha]
  | a :: b :: rest, ys, hchain, hlast => by
    have hR : noNlPair a b := (List.chain'_cons.mp hchain).1
    have ih := findNlNl_append (b :: rest) ys (List.chain'_cons.mp hchain).2
      (by simpa using hlast)
    simp only [List.cons_append] at ih ⊢
    rw [findNlNl, if_neg hR]
    rw [ih]
    simp

lemma splitNl_no_nl : ∀ (xs : List Char), '\n' ∉ xs → splitNl xs = [xs]
  | [], _ => rfl
  | a :: t, h => by
    have ha : ¬ a = '\n' := fun e => h (by simp [e])
    have ih := splitNl_no_nl t fun ht => h (List.mem_cons_of_mem _ ht)
    simp [splitNl, ha, ih]

lemma splitNl_append : ∀ (xs ys : List Char), '\n' ∉ xs →
    splitNl (xs ++ '\n' :: ys) = xs :: splitNl ys
  | [], ys, _ => by simp [splitNl]
  | a :: t, ys, h => by
    have ha : ¬ a = '\n' := fun e => h (by simp [e])
    have ih := splitNl_append t ys fun ht => h (List.mem_cons_of_mem _ ht)
    simp [splitNl, ha, ih]

lemma splitNl_headPart : ∀ (h : List (List Char × List Char)) (c : List Char),
    '\n' ∉ c → (∀ kv ∈ h, '\n' ∉ kv.1 ∧ '\n' ∉ kv.2) →
    splitNl (headPart c h) = c :: h.map lineStr
  | [], c, hc, _ => by simp [headPart, splitNl_no_nl c hc]
  | kv :: t, c, hc, hh => by
    obtain ⟨hkn, hvn⟩ := hh kv (List.mem_cons_self _ _)
    have hla : '\n' ∉ lineStr kv := by
      simp only [lineStr, List.mem_append, List.mem_cons]
      rintro (h1 | h2 | h3)
      · exact hkn h1
      · exact absurd h2.symm (by decide)
      · exact hvn h3
    have hstep : headPart c (kv :: t) = c ++ '\n' :: headPart (lineStr kv) t := by
      simp [headPart, lineStr, List.append_assoc]
    rw [hstep, splitNl_append _ _ hc,
      splitNl_headPart t (lineStr kv) hla fun p hp => hh p (List.mem_cons_of_mem _ hp)]
    simp

lemma findIdx_colon : ∀ (k v : List Char), ':' ∉ k →
    (k ++ ':' :: v).findIdx? (fun c => c = ':') = some k.length
  | [], v, _ => by simp [List.findIdx?_cons]
  | a :: t, v, h => by
    have ha : ¬ a = ':' := fun e => h (by simp [e])
    have ih := findIdx_colon t v fun ht => h (List.mem_cons_of_mem _ ht)
    simp [List.findIdx?_cons, ha, ih]

lemma objSet_fresh {κ α : Type} [DecidableEq κ] (m : List (κ × α)) (k : κ)
    (v : α) (h : ∀ kv ∈ m, kv.1 ≠ k) : objSet m k v = m ++ [(k, v)] := by
  unfold objSet
  rw [if_neg]
  simp only [List.any_eq_true, decide_eq_true_eq, not_exists]
  rintro kv ⟨hmem, hk⟩
  exact h kv hmem hk

lemma parseHeaderLine_line (acc : List (List Char × List Char))
    (kv : List Char × List Char) (hk0 : kv.1 ≠ []) (hkc : ':' ∉ kv.1)
    (hfresh : ∀ p ∈ acc, p.1 ≠ kv.1) :
    parseHeaderLine acc (lineStr kv) = acc ++ [kv] := by
  unfold parseHeaderLine
  rw [if_neg (by simp [lineStr])]
  rw [show lineStr kv = kv.1 ++ ':' :: kv.2 from rfl, findIdx_colon kv.1 kv.2 hkc]
  show (if kv.1.length = 0 then acc
    else objSet acc ((kv.1 ++ ':' :: kv.2).take kv.1.length)
      ((kv.1 ++ ':' :: kv.2).drop (kv.1.length + 1))) = acc ++ [kv]
  rw [if_neg (by simpa using hk0)]
  have htake : (kv.1 ++ ':' :: kv.2).take kv.1.length = kv.1 := List.take_left _ _
  have hdrop : (kv.1 ++ ':' :: kv.2).drop (kv.1.length + 1) = kv.2 := by
    have : kv.1 ++ ':' :: kv.2 = (kv.1 ++ [':']) ++ kv.2 := by simp
    rw [this, List.drop_left' (by simp)]
  rw [htake, hdrop, objSet_fresh acc kv.1 kv.2 hfresh]

lemma fold_header_lines : ∀ (h : List (List Char × List Char))
    (acc : List (List Char × List Char)),
    (∀ kv ∈ h, kv.1 ≠ [] ∧ ':' ∉ kv.1) → (h.map Prod.fst).Nodup →
    (∀ kv ∈ h, ∀ p ∈ acc, p.1 ≠ kv.1) →
    (h.map lineStr).foldl parseHeaderLine acc = acc ++ h
  | [], acc, _, _, _ => by simp
  | kv :: t, acc, hv, hnd, hdisj => by
    obtain ⟨hk0, hkc⟩ := hv kv (List.mem_cons_self _ _)
    simp only [List.map_cons, List.foldl_cons]
    rw [parseHeaderLine_line acc kv hk0 hkc (hdisj kv (List.mem_cons_self _ _))]
    rw [fold_header_lines t (acc ++ [kv])
      (fun p hp => hv p (List.mem_cons_of_mem _ hp))
      (by simpa using (List.nodup_cons.mp (by simpa using hnd)).2)
      ?_]
    · simp
    · intro p hp q hq
      rcases List.mem_append.mp hq with hq1 | hq2
      · exact hdisj p (List.mem_cons_of_mem _ hp) q hq1
      · have hqkv : q = kv := by simpa using hq2
        have hk1 : kv.1 ∉ t.map Prod.fst :=
          (List.nodup_cons.mp (by simpa using hnd)).1
        rw [hqkv]
        intro he
        exact hk1 (he ▸ List.mem_map_of_mem Prod.fst hp)

lemma parseFrameAfterStrip_eq_of_find (s : List Char) (i : Nat)
    (hf : findNlNl s = some i) :
    parseFrameAfterStrip s = parseHeadBody (s.take i) (s.drop (i + 2)) := by
  unfold parseFrameAfterStrip
  rw [hf]

/-- **C1.** Decoding the encoding of any valid `(command, headers, body)`
triple reproduces the triple exactly: `parseStompFrame (stompFrame c h b)`
yields a frame with the same command, the same header list in the same
order, and the same body. -/
theorem C1_stomp_roundtrip (c : List Char) (h : List (List Char × List Char))
    (b : List Char) (hv : ValidFrame c h b) :
    parseStompFrame (stompFrame c h b) =
      some (ParsedMsg.frame ⟨c, h, b⟩) := by
  obtain ⟨hc0, hcn, hh, hnd, _⟩ := hv
  have hok := headPart_ok h c hc0 (chain'_of_no_nl c hcn)
    (getLast?_ne_of_not_mem hcn)
    (fun kv hm => ⟨(hh kv hm).1, (hh kv hm).2.1, (hh kv hm).2.2.2⟩)
  set H := headPart c h with hH
  have henc' : stompFrame c h b = (H ++ '\n' :: '\n' :: b) ++ ['\x00'] := by
    rw [stompFrame_as_headPart h c b, hH]
    simp [List.append_assoc]
  have hraw0 : ¬ stompFrame c h b = [] := by rw [henc']; simp
  have hraw1 : ¬ stompFrame c h b = ['\n'] := by
    rw [henc']
    intro heq
    have hlen := congrArg List.length heq
    simp [List.length_append] at hlen
    omega
  have hlast : (stompFrame c h b).getLast? = some '\x00' := by
    rw [henc', List.getLast?_concat]
  have hdroplast : (stompFrame c h b).dropLast = H ++ '\n' :: '\n' :: b := by
    rw [henc', List.dropLast_concat]
  have hfind : findNlNl (H ++ '\n' :: '\n' :: b) = some H.length :=
    findNlNl_append H b hok.1 hok.2.1
  have htake : (H ++ '\n' :: '\n' :: b).take H.length = H := List.take_left _ _
  have hdrop : (H ++ '\n' :: '\n' :: b).drop (H.length + 2) = b := by
    have hsplit2 : H ++ '\n' :: '\n' :: b = (H ++ ['\n', '\n']) ++ b := by simp
    rw [hsplit2, List.drop_left' (by simp)]
  have hsplit : splitNl H = c :: h.map lineStr :=
    splitNl_headPart h c hcn (fun kv hm => ⟨(hh kv hm).2.1, (hh kv hm).2.2.2⟩)
  have hfold : (h.map lineStr).foldl parseHeaderLine [] = h := by
    simpa using fold_header_lines h []
      (fun kv hm => ⟨(hh kv hm).1, (hh kv hm).2.2.1⟩) hnd (by simp)
  rw [parseStompFrame, if_neg hraw0, if_neg hraw1]
  unfold parseFrameBody
  rw [hlast, if_pos rfl, hdroplast,
    parseFrameAfterStrip_eq_of_find _ _ hfind, htake, hdrop]
  unfold parseHeadBody
  rw [hsplit]
  simp only [List.headD_cons, List.tail_cons, hfold]

/-- Witness for C1: the round-trip theorem applied to the concrete frame of
the spec's Scenario A shape. -/
theorem C1_stomp_roundtrip_witness :
    parseStompFrame (stompFrame "SEND".toList
      [("destination".toList, "/api/chat".toList),
       ("content-type".toList, "application/json".toList)]
      "hello:42".toList) =
    some (ParsedMsg.frame ⟨"SEND".toList,
      [("destination".toList, "/api/chat".toList),
       ("content-type".toList, "application/json".toList)],
      "hello:42".toList⟩) :=
  C1_stomp_roundtrip _ _ _ (by decide)

/-- **C9.** `parseStompFrame` classifies exactly the single-newline payload
as the heartbeat marker: the heartbeat result is produced iff the raw input
is `'\n'` alone, and that input is never turned into an ordinary Frame. -/
theorem C9_heartbeat_iff (raw : List Char) :
    parseStompFrame raw = some ParsedMsg.heartbeat ↔ raw = ['\n'] := by
  unfold parseStompFrame
  by_cases h0 : raw = []
  · subst h0; simp
  · rw [if_neg h0]
    by_cases h1 : raw = ['\n']
    · subst h1; simp
    · rw [if_neg h1]
      simp [h1]

/-- **C7 counterexample.** The input `"\n\n"` has no command line (its first
line is empty), yet `parseStompFrame` returns an ordinary Frame (with empty
command, no headers, empty body) rather than the failure value `null`.
This refutes the claim that every malformed input yields a parse failure. -/
theorem C7_cex :
    parseStompFrame ['\n', '\n'] = some (ParsedMsg.frame ⟨[], [], []⟩) ∧
      parseStompFrame ['\n', '\n'] ≠ none := by
  decide

/-- **C7 amended.** `parseStompFrame` is total (it is a function, so it
never crashes) and returns the failure value `null` exactly on the empty
input; every other non-heartbeat input — however malformed — is leniently
parsed into a Frame, possibly with an empty command. -/
theorem C7_parse_failure_iff_empty (raw : List Char) :
    parseStompFrame raw = none ↔ raw = [] := by
  unfold parseStompFrame
  by_cases h0 : raw = []
  · subst h0; simp
  · rw [if_neg h0]
    by_cases h1 : raw = ['\n']
    · subst h1; simp
    · rw [if_neg h1]
      simp [h0]

/-! ### Probe correlator and MESSAGE processing (`src/k6-ws-new.js`) -/

/-- The resolve block of the message handler (lines 266-270): look the nonce
up in `pending`; if present, record `Date.now() - start` as the RTT and
delete the key; otherwise do nothing.  Timestamps are `Nat` milliseconds and
the recorded RTT is the JS numeric difference, an `Int`. -/
def resolveProbe (pending : List (List Char × Nat)) (nonce : List Char)
    (now : Nat) : Option Int × List (List Char × Nat) :=
  match objGet pending nonce with
  | some start => (some ((now : Int) - (start : Int)), objDel pending nonce)
  | none => (none, pending)

/-- The decoded JSON body of a MESSAGE frame as the handler reads it.
`JSON.parse` itself is an external library primitive; its result is modelled
with the five optional string fields the handler inspects (`none` models an
absent field). -/
structure MsgBody where
  message : Option (List Char)
  content : Option (List Char)
  senderId : Option (List Char)
  senderID : Option (List Char)
  fromUserId : Option (List Char)
deriving DecidableEq

/-- JS `a || b || ...` over possibly-absent strings: the first truthy
(present and non-empty) value, otherwise the last operand's value. -/
def jsOrChain : List (Option (List Char)) → Option (List Char)
  | [] => none
  | [x] => x
  | x :: rest =>
    match x with
    | some s => if s = [] then jsOrChain rest else some s
    | none => jsOrChain rest

/-- JS template interpolation of a possibly-undefined string. -/
def tmpl : Option (List Char) → List Char
  | none => "undefined".toList
  | some s => s

/-- `const msgText = body.message || body.content || ''` (line 258). -/
def msgTextOf (b : MsgBody) : List Char :=
  (jsOrChain [b.message, b.content, some []]).getD []

/-- `const senderId = body.senderId || body.senderID || body.fromUserId`
(line 259). -/
def senderIdOf (b : MsgBody) : Option (List Char) :=
  jsOrChain [b.senderId, b.senderID, b.fromUserId]

/-- `msgText.match(/^ping:(\d+)$/)` (line 263): the whole text must be
`ping:` followed by one or more decimal digits; the captured digit group is
returned. -/
def matchPing (s : List Char) : Option (List Char) :=
  if s.take 5 = "ping:".toList ∧ s.drop 5 ≠ [] ∧ (s.drop 5).all Char.isDigit
  then some (s.drop 5) else none

/-- Lines 256-272 of the message handler, after the JSON body has been
decoded: extract text and sender, match the ping pattern, compare the
sender with this session's user id via template-string interpolation, and
resolve the probe.  Returns the recorded RTT (if any) and the new pending
map. -/
def processMessage (userId : List Char) (b : MsgBody)
    (pending : List (List Char × Nat)) (now : Nat) :
    Option Int × List (List Char × Nat) :=
  match matchPing (msgTextOf b) with
  | some nonce =>
    if tmpl (senderIdOf b) = tmpl (some userId) then
      resolveProbe pending nonce now
    else (none, pending)
  | none => (none, pending)

/-! ### Session state machine (`src/k6-ws-new.js`, `ws.connect` callback) -/

/-- The two states the script's `state` variable takes. -/
inductive ConnState where
  | CONNECTING
  | CHATTING
deriving DecidableEq

/-- The JSON payload object built by the send loop (lines 295-301). -/
structure Payload where
  type : List Char
  senderId : List Char
  chatId : List Char
  message : List Char
  timeStamp : List Char
deriving DecidableEq

/-- Per-session configuration and the external library primitives the
handlers call.  `safeJsonO` models `safeJson`/`JSON.parse`, `stringifyO`
models `JSON.stringify`, `isoO` models `new Date(ts).toISOString()`: the
script treats all three as black boxes. -/
structure Config where
  jwt : List Char
  userId : List Char
  vu : Nat
  chatRefreshMs : Nat
  sessionTimeMs : Nat
  safeJsonO : List Char → Option MsgBody
  stringifyO : Payload → List Char
  isoO : Nat → List Char

/-- The mutable per-session variables: `state`, `chatIds`, `pending`. -/
structure Sess where
  state : ConnState
  chatIds : List (List Char)
  pending : List (List Char × Nat)
deriving DecidableEq

/-- Events a session reacts to: the transport `open` callback, an incoming
message (with the chat list the external directory would return if fetched,
and the current clock), a firing of the periodic send interval (with the
clock and the random room choice), and a firing of the chat-refresh
interval. -/
inductive Ev where
  | onOpen
  | message (raw : List Char) (freshChats : List (List Char)) (now : Nat)
  | sendTick (now : Nat) (pick : Nat)
  | refreshTick (freshChats : List (List Char))
deriving DecidableEq

/-- Observable effects of handling one event: wire strings passed to
`socket.send`, interval registrations (`socket.setInterval`, in ms),
timeout registrations, metric increments, recorded RTTs, and directory
fetches (`getChats` calls). -/
structure Out where
  sent : List (List Char) := []
  timers : List Nat := []
  timeouts : List Nat := []
  stompErr : Nat := 0
  msgsRecv : Nat := 0
  msgsSent : Nat := 0
  rtt : List Int := []
  chatFetches : Nat := 0
deriving DecidableEq

/-- The STOMP CONNECT frame built at session start (lines 203-208). -/
def connectWire (cfg : Config) : List Char :=
  stompFrame "CONNECT".toList
    [("accept-version".toList, "1.2".toList),
     ("heart-beat".toList, "10000,10000".toList),
     ("Authorization".toList, cfg.jwt)] []

/-- The STOMP SUBSCRIBE frame built at session start (lines 210-213). -/
def subscribeWire (cfg : Config) : List Char :=
  stompFrame "SUBSCRIBE".toList
    [("id".toList, "sub-".toList ++ (Nat.repr cfg.vu).toList),
     ("destination".toList,
      "/user/".toList ++ cfg.userId ++ "/queue/messages".toList)] []

/-- The SEND frame emitted by one send-loop firing (lines 290-307). -/
def sendWire (cfg : Config) (cid : List Char) (now : Nat) : List Char :=
  stompFrame "SEND".toList
    [("destination".toList, "/api/chat".toList),
     ("content-type".toList, "application/json".toList)]
    (cfg.stringifyO
      { type := "SEND_MSG".toList
        senderId := cfg.userId
        chatId := cid
        message := "ping:".toList ++ (Nat.repr now).toList
        timeStamp := cfg.isoO now })

/-- One step of the session: the `socket.on('open')` handler (lines
219-223), the `socket.on('message')` handler (lines 225-273) and the two
intervals (send loop lines 285-311, chat refresh line 239), translated
branch by branch from `src/k6-ws-new.js`. -/
def step (cfg : Config) (s : Sess) : Ev → Sess × Out
  | Ev.onOpen =>
    (s, { sent := [connectWire cfg], timeouts := [cfg.sessionTimeMs] })
  | Ev.message raw fresh now =>
    match parseStompFrame raw with
    | none => (s, {})
    | some ParsedMsg.heartbeat =>
      -- command 'HEARTBEAT' is neither CONNECTED, ERROR nor MESSAGE
      (s, {})
    | some (ParsedMsg.frame f) =>
      if f.command = "CONNECTED".toList then
        ({ s with state := ConnState.CHATTING, chatIds := fresh },
         { sent := [subscribeWire cfg]
           chatFetches := 1
           timers := if cfg.chatRefreshMs > 0 then [cfg.chatRefreshMs] else [] })
      else if f.command = "ERROR".toList then
        (s, { stompErr := 1 })
      else if ¬ f.command = "MESSAGE".toList then
        (s, {})
      else
        match cfg.safeJsonO f.body with
        | none => (s, {})
        | some b =>
          let r := processMessage cfg.userId b s.pending now
          ({ s with pending := r.2 },
           { msgsRecv := 1, rtt := r.1.toList })
  | Ev.sendTick now pick =>
    if ¬ s.state = ConnState.CHATTING then (s, {})
    else if s.chatIds.length = 0 then (s, {})
    else
      let cid := s.chatIds.getD (pick % s.chatIds.length) []
      let nonce := (Nat.repr now).toList
      ({ s with pending := objSet s.pending nonce now },
       { sent := [sendWire cfg cid now], msgsSent := 1 })
  | Ev.refreshTick fresh =>
    ({ s with chatIds := fresh }, { chatFetches := 1 })

/-- The STOMP command of a wire string: its first line. -/
def wireCommand : List Char → List Char
  | [] => []
  | c :: rest => if c = '\n' then [] else c :: wireCommand rest

/-- The send-interval body of `src/ws-script.js` (lines 115-152), up to the
frame it emits: `none` when the state guard or the empty-chat-list guard
returns early, otherwise the SEND wire string built by string
concatenation.  `JSON.stringify` and `toISOString` are again oracles. -/
def sendTickWS (userId : List Char) (stringifyO : Payload → List Char)
    (isoNow : List Char) (state : ConnState) (chatIds : List (List Char))
    (now : Nat) (pick : Nat) : Option (List Char) :=
  if ¬ state = ConnState.CHATTING then none
  else if chatIds.length = 0 then none
  else
    some ("SEND\n".toList ++ "destination:/api/chat\n".toList
      ++ "content-type:application/json\n\n".toList
      ++ stringifyO
        { type := "SEND_MSG".toList
          senderId := userId
          chatId := chatIds.getD (pick % chatIds.length) []
          message := "ping:".toList ++ (Nat.repr now).toList
          timeStamp := isoNow }
      ++ ['\x00'])

lemma wireCommand_cons_no_nl : ∀ (c rest : List Char), '\n' ∉ c →
    wireCommand (c ++ '\n' :: rest) = c
  | [], _, _ => by simp [wireCommand]
  | a :: t, rest, h => by
    have ha : ¬ a = '\n' := fun e => h (by simp [e])
    have ih := wireCommand_cons_no_nl t rest fun ht => h (List.mem_cons_of_mem _ ht)
    simp [wireCommand, ha, ih]

lemma wireCommand_stompFrame (c : List Char) (h : List (List Char × List Char))
    (b : List Char) (hc : '\n' ∉ c) : wireCommand (stompFrame c h b) = c := by
  unfold stompFrame
  have hform : c ++ ['\n']
      ++ (h.map (fun kv => kv.1 ++ [':'] ++ kv.2 ++ ['\n'])).flatten
      ++ ['\n'] ++ b ++ ['\x00']
      = c ++ '\n' :: ((h.map (fun kv => kv.1 ++ [':'] ++ kv.2 ++ ['\n'])).flatten
        ++ '\n' :: (b ++ ['\x00'])) := by
    simp [List.append_assoc]
  rw [hform, wireCommand_cons_no_nl c _ hc]

lemma step_message_sent (cfg : Config) (s : Sess) (raw : List Char)
    (fresh : List (List Char)) (now : Nat) :
    (step cfg s (Ev.message raw fresh now)).2.sent = [] ∨
    (step cfg s (Ev.message raw fresh now)).2.sent = [subscribeWire cfg] := by
  simp only [step]
  split
  · left; rfl
  · left; rfl
  · rename_i f heq
    by_cases h1 : f.command = "CONNECTED".toList
    · right
      rw [if_pos h1]
    · rw [if_neg h1]
      by_cases h2 : f.command = "ERROR".toList
      · left
        rw [if_pos h2]
      · rw [if_neg h2]
        by_cases h3 : ¬ f.command = "MESSAGE".toList
        · left
          rw [if_pos h3]
        · rw [if_neg h3]
          split
          · left; rfl
          · left; rfl

lemma step_sendTick_connecting (cfg : Config) (s : Sess)
    (hs : s.state = ConnState.CONNECTING) (now pick : Nat) :
    step cfg s (Ev.sendTick now pick) = (s, {}) := by
  simp only [step]
  rw [if_pos (by rw [hs]; decide)]

/-- **C3.** While a session's state is CONNECTING no SEND frame is emitted:
every wire string any event handler passes to `socket.send` in that state
has a STOMP command other than SEND (the `open` handler sends CONNECT, a
CONNECTED frame triggers SUBSCRIBE), and the send-interval callback of both
`src/k6-ws-new.js` and `src/ws-script.js` returns without sending and
without any state change unless the state is CHATTING. -/
theorem C3_no_send_while_connecting (cfg : Config) (s : Sess) (ev : Ev)
    (hs : s.state = ConnState.CONNECTING) :
    (∀ w ∈ (step cfg s ev).2.sent, ¬ wireCommand w = "SEND".toList) ∧
    (∀ now pick, step cfg s (Ev.sendTick now pick) = (s, {})) ∧
    (∀ userId strO iso chatIds now pick,
      sendTickWS userId strO iso ConnState.CONNECTING chatIds now pick = none) := by
  refine ⟨?_, fun now pick => step_sendTick_connecting cfg s hs now pick, ?_⟩
  · intro w hw
    have hsubs : ¬ wireCommand (subscribeWire cfg) = "SEND".toList := by
      unfold subscribeWire
      rw [wireCommand_stompFrame _ _ _ (by decide)]
      decide
    cases ev with
    | onOpen =>
      have hww : w = connectWire cfg := by simpa [step] using hw
      rw [hww]
      unfold connectWire
      rw [wireCommand_stompFrame _ _ _ (by decide)]
      decide
    | message raw fresh now =>
      rcases step_message_sent cfg s raw fresh now with hnil | hone
      · rw [hnil] at hw
        simp at hw
      · rw [hone] at hw
        have hww : w = subscribeWire cfg := by simpa using hw
        rw [hww]
        exact hsubs
    | sendTick now pick =>
      rw [step_sendTick_connecting cfg s hs now pick] at hw
      simp at hw
    | refreshTick fresh =>
      simp [step] at hw
  · intro userId strO iso chatIds now pick
    simp [sendTickWS]

/-- Witness for C3 at a concrete CONNECTING session and a send-tick
event. -/
theorem C3_no_send_while_connecting_witness :
    (∀ w ∈ (step
        { jwt := "Bearer J".toList, userId := "u1".toList, vu := 1,
          chatRefreshMs := 30000, sessionTimeMs := 600000,
          safeJsonO := fun _ => none, stringifyO := fun _ => [],
          isoO := fun _ => [] }
        ⟨ConnState.CONNECTING, [], []⟩ (Ev.sendTick 1000 0)).2.sent,
      ¬ wireCommand w = "SEND".toList) ∧
    (∀ now pick, step
        { jwt := "Bearer J".toList, userId := "u1".toList, vu := 1,
          chatRefreshMs := 30000, sessionTimeMs := 600000,
          safeJsonO := fun _ => none, stringifyO := fun _ => [],
          isoO := fun _ => [] }
        ⟨ConnState.CONNECTING, [], []⟩ (Ev.sendTick now pick) =
      (⟨ConnState.CONNECTING, [], []⟩, {})) ∧
    (∀ userId strO iso chatIds now pick,
      sendTickWS userId strO iso ConnState.CONNECTING chatIds now pick = none) :=
  C3_no_send_while_connecting _ _ _ rfl

/-- A concrete configuration used to instantiate counterexamples and
witnesses (the oracle fields are concrete functions so that terms
evaluate). -/
def demoConfig : Config :=
  { jwt := "Bearer J".toList
    userId := "u1".toList
    vu := 1
    chatRefreshMs := 30000
    sessionTimeMs := 600000
    safeJsonO := fun _ => none
    stringifyO := fun _ => []
    isoO := fun _ => [] }

/-- **C5 counterexample.** A duplicate CONNECTED frame received while the
session is already CHATTING is *not* a no-op in `src/k6-ws-new.js`: the
unguarded CONNECTED branch re-sends SUBSCRIBE, performs another directory
fetch, registers an additional refresh interval, and even overwrites
`chatIds` with the freshly fetched list.  Only the state value itself stays
CHATTING. -/
theorem C5_cex :
    (step demoConfig ⟨ConnState.CHATTING, ["c1".toList], []⟩
        (Ev.message ("CONNECTED\n\n".toList ++ ['\x00']) [] 0)).1.state
      = ConnState.CHATTING ∧
    (step demoConfig ⟨ConnState.CHATTING, ["c1".toList], []⟩
        (Ev.message ("CONNECTED\n\n".toList ++ ['\x00']) [] 0)).2.sent
      = [subscribeWire demoConfig] ∧
    (step demoConfig ⟨ConnState.CHATTING, ["c1".toList], []⟩
        (Ev.message ("CONNECTED\n\n".toList ++ ['\x00']) [] 0)).2.chatFetches
      = 1 ∧
    (step demoConfig ⟨ConnState.CHATTING, ["c1".toList], []⟩
        (Ev.message ("CONNECTED\n\n".toList ++ ['\x00']) [] 0)).2.timers
      = [30000] ∧
    (step demoConfig ⟨ConnState.CHATTING, ["c1".toList], []⟩
        (Ev.message ("CONNECTED\n\n".toList ++ ['\x00']) [] 0)).1.chatIds
      = [] := by
  decide

/-- **C5 amended.** Receiving a CONNECTED frame while already CHATTING
leaves the state value at CHATTING (the assignment is idempotent on the
state), but it re-executes the whole entry block: it sends exactly one more
SUBSCRIBE frame, performs exactly one more directory fetch (overwriting
`chatIds` with the fetched list), and registers one additional refresh
interval whenever the refresh period is positive. -/
theorem C5_duplicate_connected (cfg : Config) (s : Sess) (raw : List Char)
    (f : Frame) (fresh : List (List Char)) (now : Nat)
    (_hs : s.state = ConnState.CHATTING)
    (hp : parseStompFrame raw = some (ParsedMsg.frame f))
    (hc : f.command = "CONNECTED".toList) :
    step cfg s (Ev.message raw fresh now) =
      ({ s with state := ConnState.CHATTING, chatIds := fresh },
       { sent := [subscribeWire cfg]
         chatFetches := 1
         timers := if cfg.chatRefreshMs > 0 then [cfg.chatRefreshMs] else [] }) := by
  simp only [step, hp]
  rw [if_pos hc]

/-- Witness for the amended C5 at a concrete CHATTING session. -/
theorem C5_duplicate_connected_witness :
    step demoConfig ⟨ConnState.CHATTING, [], [("7".toList, 7)]⟩
        (Ev.message ("CONNECTED\n\n".toList ++ ['\x00']) ["c2".toList] 9) =
      (⟨ConnState.CHATTING, ["c2".toList], [("7".toList, 7)]⟩,
       { sent := [subscribeWire demoConfig]
         chatFetches := 1
         timers := [30000] }) := by
  have h := C5_duplicate_connected demoConfig
    ⟨ConnState.CHATTING, [], [("7".toList, 7)]⟩
    ("CONNECTED\n\n".toList ++ ['\x00']) ⟨"CONNECTED".toList, [], []⟩
    ["c2".toList] 9 rfl (by decide) rfl
  rw [h]
  decide

/-! ### The minimal-variant handler (`src/k6-ws-new-min.js`) -/

/-- The SUBSCRIBE frame string of the minimal variant (lines 124-127),
built by plain string concatenation. -/
def subFrameMin (vu : Nat) (userId : List Char) : List Char :=
  "SUBSCRIBE\nid:sub-".toList ++ (Nat.repr vu).toList
    ++ "\ndestination:/user/".toList ++ userId
    ++ "/queue/messages\n\n".toList ++ ['\x00']

/-- `text.match(/"ping:(\d+)"/)` attempted at the start of `s`: the quote,
the literal `ping:`, then a non-empty greedy digit run that must be
followed by a closing quote (a shorter digit run would be followed by a
digit, never a quote, so greedy matching without backtracking is exact). -/
def quotedPingAt (s : List Char) : Option (List Char) :=
  if s.take 6 = ('"' :: "ping:".toList) then
    let rest := s.drop 6
    let ds := rest.takeWhile (fun c => c.isDigit)
    if ds = [] then none
    else if (rest.drop ds.length).head? = some '"' then some ds else none
  else none

/-- `text.match(/"ping:(\d+)"/)` (line 144): the leftmost occurrence. -/
def findQuotedPing : List Char → Option (List Char)
  | [] => none
  | c :: rest =>
    match quotedPingAt (c :: rest) with
    | some d => some d
    | none => findQuotedPing rest

/-- The `socket.on('message')` handler of `src/k6-ws-new-min.js` (lines
139-192): in CHATTING, match the quoted ping pattern against the whole raw
text and resolve the probe; otherwise (CONNECTING), a text starting with
`CONNECTED` sends SUBSCRIBE, moves to CHATTING and fetches the chat list
(appending to `chatIds`), and any other text increments the protocol-error
counter. -/
def onMessageMin (vu : Nat) (userId : List Char) (s : Sess)
    (text : List Char) (freshChats : List (List Char)) (now : Nat) :
    Sess × Out :=
  if s.state = ConnState.CHATTING then
    match findQuotedPing text with
    | some nonce =>
      let r := resolveProbe s.pending nonce now
      ({ s with pending := r.2 }, { msgsRecv := 1, rtt := r.1.toList })
    | none => (s, {})
  else
    if text.take 9 = "CONNECTED".toList then
      ({ s with state := ConnState.CHATTING,
                chatIds := s.chatIds ++ freshChats },
       { sent := [subFrameMin vu userId], chatFetches := 1 })
    else
      (s, { stompErr := 1 })

/-- **C6 counterexample.** In `src/k6-ws-new.js` a RECEIPT frame received
while CONNECTING — a frame whose command is not CONNECTED — increments no
protocol-error counter at all (the handler falls through its command checks
and returns silently); the state does remain CONNECTING.  This refutes the
claim that every non-CONNECTED frame received in CONNECTING records a
protocol-error metric. -/
theorem C6_cex :
    parseStompFrame ("RECEIPT\n\n".toList ++ ['\x00'])
      = some (ParsedMsg.frame ⟨"RECEIPT".toList, [], []⟩) ∧
    ¬ "RECEIPT".toList = "CONNECTED".toList ∧
    (step demoConfig ⟨ConnState.CONNECTING, [], []⟩
        (Ev.message ("RECEIPT\n\n".toList ++ ['\x00']) [] 0)).2.stompErr = 0 ∧
    (step demoConfig ⟨ConnState.CONNECTING, [], []⟩
        (Ev.message ("RECEIPT\n\n".toList ++ ['\x00']) [] 0)).1
      = ⟨ConnState.CONNECTING, [], []⟩ := by
  decide

/-- **C6 amended.** The claimed guarantee holds in the minimal variant
(`src/k6-ws-new-min.js`): while CONNECTING, any received text not starting
with `CONNECTED` increments the protocol-error counter by one and changes
nothing else.  In `src/k6-ws-new.js` a non-CONNECTED frame received while
CONNECTING always leaves the state at CONNECTING, but the protocol-error
counter is incremented only when the frame is an ERROR frame. -/
theorem C6_protocol_error_connecting (vu : Nat) (userId : List Char)
    (s : Sess) (text : List Char) (fresh : List (List Char)) (now : Nat)
    (hs : s.state = ConnState.CONNECTING)
    (hnc : ¬ text.take 9 = "CONNECTED".toList) :
    onMessageMin vu userId s text fresh now = (s, { stompErr := 1 }) ∧
    (∀ (cfg : Config) (s' : Sess) (raw : List Char)
        (fresh' : List (List Char)) (now' : Nat) (f : Frame),
      s'.state = ConnState.CONNECTING →
      parseStompFrame raw = some (ParsedMsg.frame f) →
      ¬ f.command = "CONNECTED".toList →
      (step cfg s' (Ev.message raw fresh' now')).1.state = ConnState.CONNECTING ∧
      (step cfg s' (Ev.message raw fresh' now')).2.stompErr =
        (if f.command = "ERROR".toList then 1 else 0)) := by
  constructor
  · unfold onMessageMin
    rw [if_neg (by rw [hs]; decide), if_neg hnc]
  · intro cfg s' raw fresh' now' f hs' hp hnc'
    simp only [step, hp]
    rw [if_neg hnc']
    by_cases h2 : f.command = "ERROR".toList
    · rw [if_pos h2, if_pos h2]
      exact ⟨hs', rfl⟩
    · rw [if_neg h2, if_neg h2]
      by_cases h3 : ¬ f.command = "MESSAGE".toList
      · rw [if_pos h3]
        exact ⟨hs', rfl⟩
      · rw [if_neg h3]
        split
        · exact ⟨hs', rfl⟩
        · exact ⟨hs', rfl⟩

/-- Witness for the amended C6 at a concrete CONNECTING session of the
minimal variant receiving an ERROR text. -/
theorem C6_protocol_error_connecting_witness :
    onMessageMin 1 "u1".toList ⟨ConnState.CONNECTING, [], []⟩
        "ERROR\nmessage:bad\n\n".toList [] 0
      = (⟨ConnState.CONNECTING, [], []⟩, { stompErr := 1 }) ∧
    (∀ (cfg : Config) (s' : Sess) (raw : List Char)
        (fresh' : List (List Char)) (now' : Nat) (f : Frame),
      s'.state = ConnState.CONNECTING →
      parseStompFrame raw = some (ParsedMsg.frame f) →
      ¬ f.command = "CONNECTED".toList →
      (step cfg s' (Ev.message raw fresh' now')).1.state = ConnState.CONNECTING ∧
      (step cfg s' (Ev.message raw fresh' now')).2.stompErr =
        (if f.command = "ERROR".toList then 1 else 0)) :=
  C6_protocol_error_connecting 1 "u1".toList ⟨ConnState.CONNECTING, [], []⟩
    "ERROR\nmessage:bad\n\n".toList [] 0 rfl (by decide)

/-! ### Lookup/delete facts about the pending map -/

lemma objGet_cons (kv : List Char × Nat) (t : List (List Char × Nat))
    (k : List Char) :
    objGet (kv :: t) k = if kv.1 = k then some kv.2 else objGet t k := by
  unfold objGet
  by_cases h : kv.1 = k
  · rw [List.find?_cons_of_pos _ (by simpa using h), if_pos h]
    rfl
  · rw [List.find?_cons_of_neg _ (by simpa using h), if_neg h]

lemma objDel_cons (kv : List Char × Nat) (t : List (List Char × Nat))
    (n : List Char) :
    objDel (kv :: t) n = if kv.1 = n then objDel t n else kv :: objDel t n := by
  unfold objDel
  by_cases h : kv.1 = n
  · rw [List.filter_cons_of_neg (by simpa using h), if_pos h]
  · rw [List.filter_cons_of_pos (by simpa using h), if_neg h]

lemma objGet_objDel_self (p : List (List Char × Nat)) (n : List Char) :
    objGet (objDel p n) n = none := by
  induction p with
  | nil => rfl
  | cons kv t ih =>
    rw [objDel_cons]
    by_cases h : kv.1 = n
    · rw [if_pos h]
      exact ih
    · rw [if_neg h, objGet_cons, if_neg h]
      exact ih

lemma objGet_objDel_ne (p : List (List Char × Nat)) (n k : List Char)
    (hk : ¬ k = n) : objGet (objDel p n) k = objGet p k := by
  induction p with
  | nil => rfl
  | cons kv t ih =>
    rw [objDel_cons]
    by_cases hn : kv.1 = n
    · rw [if_pos hn, objGet_cons, if_neg (fun he => hk (by rw [← he, hn]))]
      exact ih
    · rw [if_neg hn, objGet_cons, objGet_cons]
      by_cases hkk : kv.1 = k
      · rw [if_pos hkk, if_pos hkk]
      · rw [if_neg hkk, if_neg hkk]
        exact ih

lemma objGet_some_mem {p : List (List Char × Nat)} {n : List Char} {v : Nat}
    (h : objGet p n = some v) : n ∈ p.map Prod.fst := by
  induction p with
  | nil => simp [objGet] at h
  | cons kv t ih =>
    rw [objGet_cons] at h
    by_cases hn : kv.1 = n
    · simp only [List.map_cons, List.mem_cons]
      left
      exact hn.symm
    · rw [if_neg hn] at h
      simp only [List.map_cons, List.mem_cons]
      right
      exact ih h

lemma objDel_length {p : List (List Char × Nat)} {n : List Char}
    (hnd : (p.map Prod.fst).Nodup) (hmem : n ∈ p.map Prod.fst) :
    (objDel p n).length + 1 = p.length := by
  induction p with
  | nil => simp at hmem
  | cons kv t ih =>
    rw [List.map_cons, List.nodup_cons] at hnd
    rw [List.map_cons] at hmem
    rw [objDel_cons]
    rcases List.mem_cons.mp hmem with h1 | h2
    · rw [if_pos h1.symm]
      have hrest : objDel t n = t := by
        unfold objDel
        apply List.filter_eq_self.mpr
        intro q hq
        simp only [decide_eq_true_eq]
        intro he
        exact hnd.1 (by
          rw [← h1, ← he]
          exact List.mem_map_of_mem Prod.fst hq)
      rw [hrest]
      simp
    · have hk : ¬ kv.1 = n := fun he => hnd.1 (he ▸ h2)
      rw [if_neg hk]
      have hih := ih hnd.2 h2
      simp only [List.length_cons]
      omega

lemma objDel_keys_sublist (p : List (List Char × Nat)) (n : List Char) :
    List.Sublist ((objDel p n).map Prod.fst) (p.map Prod.fst) :=
  List.Sublist.map Prod.fst (List.filter_sublist p)

/-- **C10.** Handling one decoded MESSAGE body touches `pendingProbes` only
at the matched nonce: either nothing matches (no ping pattern, foreign
sender, or unknown nonce) and the pending map is returned unchanged with no
RTT recorded, or the ping's nonce is found, in which case exactly
`now - sentAt` is recorded, exactly that key is deleted, and every other
key's stored `sentAt` is preserved. -/
theorem C10_message_effect (userId : List Char) (b : MsgBody)
    (pending : List (List Char × Nat)) (now : Nat) :
    (processMessage userId b pending now = (none, pending) ∧
      (matchPing (msgTextOf b) = none ∨
       ¬ tmpl (senderIdOf b) = tmpl (some userId) ∨
       ∀ nonce, matchPing (msgTextOf b) = some nonce →
         objGet pending nonce = none)) ∨
    (∃ nonce start, matchPing (msgTextOf b) = some nonce ∧
      tmpl (senderIdOf b) = tmpl (some userId) ∧
      objGet pending nonce = some start ∧
      processMessage userId b pending now =
        (some ((now : Int) - (start : Int)), objDel pending nonce) ∧
      objGet (objDel pending nonce) nonce = none ∧
      (∀ k, ¬ k = nonce →
        objGet (objDel pending nonce) k = objGet pending k)) := by
  rcases hmp : matchPing (msgTextOf b) with _ | nonce
  · left
    exact ⟨by simp [processMessage, hmp], Or.inl rfl⟩
  · by_cases hsender : tmpl (senderIdOf b) = tmpl (some userId)
    · rcases hget : objGet pending nonce with _ | start
      · left
        refine ⟨by simp [processMessage, hmp, hsender, resolveProbe, hget],
          Or.inr (Or.inr ?_)⟩
        intro n' hn'
        cases hn'
        exact hget
      · right
        exact ⟨nonce, start, rfl, hsender, hget,
          by simp [processMessage, hmp, hsender, resolveProbe, hget],
          objGet_objDel_self pending nonce,
          fun k hk => objGet_objDel_ne pending nonce k hk⟩
    · left
      exact ⟨by simp [processMessage, hmp, hsender], Or.inr (Or.inl hsender)⟩

/-! ### Probe accounting over one session run (`src/k6-ws-new.js`),
registration at line 293, resolution at lines 266-270 -/

/-- One probe-correlator event: a registration performed by the send loop
(`pending[nonce] = ts`) or a resolve attempt performed by the message
handler. -/
inductive PEv where
  | reg (nonce : List Char) (ts : Nat)
  | res (nonce : List Char) (now : Nat)
deriving DecidableEq

/-- Fold one probe event over the pair (pending map, number of RTTs
recorded so far). -/
def applyPEv : List (List Char × Nat) × Nat → PEv → List (List Char × Nat) × Nat
  | (p, k), PEv.reg n ts => (objSet p n ts, k)
  | (p, k), PEv.res n now =>
    match resolveProbe p n now with
    | (some _, p') => (p', k + 1)
    | (none, p') => (p', k)

/-- Run a session's probe events from the empty pending map. -/
def runProbes (evs : List PEv) : List (List Char × Nat) × Nat :=
  evs.foldl applyPEv ([], 0)

/-- The nonces of the registration events of a trace, in order. -/
def regNonces : List PEv → List (List Char)
  | [] => []
  | PEv.reg n _ :: t => n :: regNonces t
  | PEv.res _ _ :: t => regNonces t

lemma applyPEv_res_none (p : List (List Char × Nat)) (k : Nat)
    (n : List Char) (now : Nat) (h : objGet p n = none) :
    applyPEv (p, k) (PEv.res n now) = (p, k) := by
  simp only [applyPEv, resolveProbe, h]

lemma runProbes_aux : ∀ (evs : List PEv) (p : List (List Char × Nat)) (k : Nat),
    (regNonces evs).Nodup →
    (∀ q ∈ p, q.1 ∉ regNonces evs) →
    (p.map Prod.fst).Nodup →
    (evs.foldl applyPEv (p, k)).2 + (evs.foldl applyPEv (p, k)).1.length
      = k + p.length + (regNonces evs).length
  | [], p, k, _, _, _ => by simp [regNonces]
  | PEv.reg n ts :: t, p, k, hnd, hdisj, hkey => by
    have hndc : (n :: regNonces t).Nodup := hnd
    rw [List.nodup_cons] at hndc
    have hfresh : ∀ q ∈ p, q.1 ≠ n := fun q hq he =>
      hdisj q hq (by rw [he]; exact List.mem_cons_self _ _)
    have hset : objSet p n ts = p ++ [(n, ts)] := objSet_fresh p n ts hfresh
    have hdisj2 : ∀ q ∈ p ++ [(n, ts)], q.1 ∉ regNonces t := by
      intro q hq
      rcases List.mem_append.mp hq with h1 | h2
      · exact fun hmem => hdisj q h1 (List.mem_cons_of_mem _ hmem)
      · have hqn : q = (n, ts) := by simpa using h2
        rw [hqn]
        exact hndc.1
    have hkey2 : ((p ++ [(n, ts)]).map Prod.fst).Nodup := by
      rw [List.map_append]
      apply List.Nodup.append hkey (by simp)
      intro x hx hx'
      have hxn : x = n := by simpa using hx'
      rcases List.mem_map.mp hx with ⟨q, hq, hqx⟩
      exact hfresh q hq (by rw [hqx, hxn])
    have ih := runProbes_aux t (p ++ [(n, ts)]) k hndc.2 hdisj2 hkey2
    simp only [List.foldl_cons, applyPEv, hset, regNonces]
    rw [ih]
    simp only [List.length_append, List.length_cons, List.length_nil]
    omega
  | PEv.res n now :: t, p, k, hnd, hdisj, hkey => by
    have hnd' : (regNonces t).Nodup := hnd
    have hdisj' : ∀ q ∈ p, q.1 ∉ regNonces t := hdisj
    rcases hget : objGet p n with _ | start
    · have hstep : applyPEv (p, k) (PEv.res n now) = (p, k) :=
        applyPEv_res_none p k n now hget
      have ih := runProbes_aux t p k hnd' hdisj' hkey
      simp only [List.foldl_cons, hstep, regNonces]
      exact ih
    · have hstep : applyPEv (p, k) (PEv.res n now) = (objDel p n, k + 1) := by
        simp only [applyPEv, resolveProbe, hget]
      have hdel : ∀ q ∈ objDel p n, q.1 ∉ regNonces t := fun q hq =>
        hdisj' q (List.mem_of_mem_filter hq)
      have hkey' : ((objDel p n).map Prod.fst).Nodup :=
        (objDel_keys_sublist p n).nodup hkey
      have ih := runProbes_aux t (objDel p n) (k + 1) hnd' hdel hkey'
      simp only [List.foldl_cons, hstep, regNonces]
      rw [ih]
      have hlen := objDel_length hkey (objGet_some_mem hget)
      omega

/-- **C2.** Over any single-session trace whose registered nonces are
pairwise distinct (the data model's uniqueness invariant for nonces), every
registered probe ends in exactly one terminal accounting: the number of
recorded RTTs plus the number of probes still pending at the end equals the
number of registrations.  Moreover a resolve that succeeded removes the
nonce, so a second resolve of the same nonce finds nothing and records no
second RTT. -/
theorem C2_probe_accounting (evs : List PEv)
    (hnd : (regNonces evs).Nodup) :
    (runProbes evs).2 + (runProbes evs).1.length = (regNonces evs).length ∧
    (∀ (p : List (List Char × Nat)) (n : List Char) (now now' : Nat)
        (r : Int) (p' : List (List Char × Nat)),
      resolveProbe p n now = (some r, p') →
      resolveProbe p' n now' = (none, p')) := by
  constructor
  · simpa using runProbes_aux evs [] 0 hnd (by simp) (by simp)
  · intro p n now now' r p' hres
    rcases hget : objGet p n with _ | start
    · rw [resolveProbe, hget] at hres
      cases hres
    · rw [resolveProbe, hget, Prod.mk.injEq] at hres
      rw [resolveProbe, ← hres.2, objGet_objDel_self]

/-- Witness for C2: a trace with one resolved probe, a failing duplicate
resolve, and one probe left pending; 1 recorded RTT + 1 pending = 2
registrations. -/
theorem C2_probe_accounting_witness :
    (runProbes [PEv.reg "1".toList 5, PEv.res "1".toList 9,
        PEv.res "1".toList 12, PEv.reg "2".toList 20]).2
      + (runProbes [PEv.reg "1".toList 5, PEv.res "1".toList 9,
        PEv.res "1".toList 12, PEv.reg "2".toList 20]).1.length
      = (regNonces [PEv.reg "1".toList 5, PEv.res "1".toList 9,
        PEv.res "1".toList 12, PEv.reg "2".toList 20]).length ∧
    (∀ (p : List (List Char × Nat)) (n : List Char) (now now' : Nat)
        (r : Int) (p' : List (List Char × Nat)),
      resolveProbe p n now = (some r, p') →
      resolveProbe p' n now' = (none, p')) :=
  C2_probe_accounting _ (by decide)

/-- **C8.** Every recorded RTT equals resolve-time minus the probe's
`sentAt`; under a monotone clock (`sentAt ≤ now`) it is non-negative, and
when the probe was registered after the session opened and resolved before
the session-duration timeout would close the transport, it is at most the
session's maximum lifetime. -/
theorem C8_rtt_bounds (pending : List (List Char × Nat)) (nonce : List Char)
    (now openT sessionTime start : Nat) (r : Int)
    (p' : List (List Char × Nat))
    (hres : resolveProbe pending nonce now = (some r, p'))
    (hget : objGet pending nonce = some start)
    (hreg : openT ≤ start)
    (hmono : start ≤ now)
    (hclose : now ≤ openT + sessionTime) :
    r = (now : Int) - (start : Int) ∧ 0 ≤ r ∧ r ≤ (sessionTime : Int) := by
  rw [resolveProbe, hget, Prod.mk.injEq, Option.some.injEq] at hres
  have hr : (now : Int) - (start : Int) = r := hres.1
  refine ⟨hr.symm, ?_, ?_⟩ <;> omega

/-- Witness for C8 at concrete timestamps. -/
theorem C8_rtt_bounds_witness :
    (500 : Int) = ((1500 : Nat) : Int) - ((1000 : Nat) : Int) ∧
    (0 : Int) ≤ 500 ∧ (500 : Int) ≤ ((600000 : Nat) : Int) :=
  C8_rtt_bounds [("1000".toList, 1000)] "1000".toList 1500 900 600000 1000
    500 [] (by decide) (by decide) (by decide) (by decide) (by decide)

/-! ### Teardown reconciliation (`src/k6-ws-new.js`, lines 195-196 and
320-327) -/

/-- One finished session of the run: the virtual user that ran it and the
pending map it left behind when it ended. -/
structure SessionRun where
  vu : Nat
  abandoned : List (List Char × Nat)
deriving DecidableEq

/-- `globalPending[vu] = pending` is executed at each session start with a
fresh empty object (lines 195-196), and the object then accumulates that
session's leftovers; folding the final per-session maps in session start
order with JS-object assignment therefore reproduces the `globalPending`
object `teardown` reads: each later session of a VU replaces that VU's
entry. -/
def buildGlobalPending (runs : List SessionRun) :
    List (Nat × List (List Char × Nat)) :=
  runs.foldl (fun g r => objSet g r.vu r.abandoned) []

/-- `teardown()` (lines 320-327): sum over the VUs present in
`globalPending` of `Object.keys(globalPending[vu]).length`. -/
def teardownTotal (runs : List SessionRun) : Nat :=
  ((buildGlobalPending runs).map (fun kv => kv.2.length)).sum

/-- **C4 counterexample.** When the same virtual user runs two sessions,
the second session's `globalPending[vu] = pending` overwrites the first
session's map, so an abandoned probe of the earlier session is omitted from
the teardown total: with a first session abandoning one probe and a second
abandoning none, teardown reports 0 while the sum over all sessions is 1. -/
theorem C4_cex :
    teardownTotal [⟨1, [("5".toList, 5)]⟩, ⟨1, []⟩] = 0 ∧
    (([⟨1, [("5".toList, 5)]⟩, ⟨1, []⟩] : List SessionRun).map
        (fun r => r.abandoned.length)).sum = 1 ∧
    ¬ teardownTotal [⟨1, [("5".toList, 5)]⟩, ⟨1, []⟩]
      = (([⟨1, [("5".toList, 5)]⟩, ⟨1, []⟩] : List SessionRun).map
          (fun r => r.abandoned.length)).sum := by
  decide

lemma buildGlobalPending_aux : ∀ (runs : List SessionRun)
    (g : List (Nat × List (List Char × Nat))),
    (∀ r ∈ runs, r.vu ∉ g.map Prod.fst) →
    (runs.map SessionRun.vu).Nodup →
    ((runs.foldl (fun g' r => objSet g' r.vu r.abandoned) g).map
        (fun kv => kv.2.length)).sum
      = (g.map (fun kv => kv.2.length)).sum
        + (runs.map (fun r => r.abandoned.length)).sum
  | [], g, _, _ => by simp
  | r :: t, g, hdisj, hnd => by
    rw [List.map_cons, List.nodup_cons] at hnd
    have hfresh : ∀ kv ∈ g, kv.1 ≠ r.vu := fun kv hk he =>
      hdisj r (List.mem_cons_self _ _) (he ▸ List.mem_map_of_mem Prod.fst hk)
    have hdisj2 : ∀ r' ∈ t, r'.vu ∉ (g ++ [(r.vu, r.abandoned)]).map Prod.fst := by
      intro r' hr'
      rw [List.map_append]
      intro hmem
      rcases List.mem_append.mp hmem with h1 | h2
      · exact hdisj r' (List.mem_cons_of_mem _ hr') h1
      · have hv : r'.vu = r.vu := by simpa using h2
        exact hnd.1 (hv ▸ List.mem_map_of_mem SessionRun.vu hr')
    have ih := buildGlobalPending_aux t (g ++ [(r.vu, r.abandoned)]) hdisj2 hnd.2
    simp only [List.foldl_cons, objSet_fresh g r.vu r.abandoned hfresh]
    rw [ih]
    simp only [List.map_append, List.sum_append, List.map_cons, List.sum_cons,
      List.map_nil, List.sum_nil]
    omega

/-- **C4 amended.** The teardown reconciliation equals the sum of abandoned
probes over the *most recent* session of each virtual user, because each
new session of a VU overwrites that VU's `globalPending` entry; in
particular, when no virtual user runs more than one session, it equals the
total number of abandoned probes across all sessions of the run. -/
theorem C4_teardown_reconciliation (runs : List SessionRun)
    (hnd : (runs.map SessionRun.vu).Nodup) :
    teardownTotal runs = (runs.map (fun r => r.abandoned.length)).sum := by
  unfold teardownTotal buildGlobalPending
  simpa using buildGlobalPending_aux runs [] (by simp) hnd

/-- Witness for the amended C4: two distinct VUs, 1 + 2 abandoned probes. -/
theorem C4_teardown_reconciliation_witness :
    teardownTotal [⟨1, [("5".toList, 5)]⟩,
        ⟨2, [("6".toList, 6), ("7".toList, 7)]⟩]
      = (([⟨1, [("5".toList, 5)]⟩,
          ⟨2, [("6".toList, 6), ("7".toList, 7)]⟩] : List SessionRun).map
          (fun r => r.abandoned.length)).sum :=
  C4_teardown_reconciliation _ (by decide)

end ClusterTesting
